import Mathlib

/-!
Verification of the Rigol DAQ acquisition scripts (`rigolDAQ.py`,
`rigolDAQ_max_mode.py`, `rigolDAQ_normal_mode.py`).

The development shallowly embeds the protocol/codec core of the three
scripts: Python byte-string slicing and `find`, `int()` digit parsing,
the socket receive loops over a modelled TCP stream, the SCPI binary
block decoders, the channel calibration formula, the `query_float`
retry logic, the trigger-status polling loops, and a command-trace
model of the acquisition main loops.

Bytes are modelled as `ℕ` (values 0..255 in practice), byte strings as
`List ℕ`, Python floats as `ℚ`, and exceptions as `Except` errors.
-/

/-- Errors of the embedded code.  Each constructor models a concrete
Python exception:
* `missingHeader` — `ValueError("Data block not found")` in `rigolDAQ.py`
  and `ValueError("No waveform data header found …")` in max mode;
* `malformedHeader` — the `ValueError`/`UnicodeDecodeError` raised by
  `int(slice.decode())` on a non-digit or empty header slice;
* `ioTimeout` — `socket.timeout` raised by `recv` on a silent peer;
* `connectionClosed` — `ConnectionError("Connection lost …")` raised by
  `receive_waveform_data` in max mode on an empty chunk;
* `stuck` — the normal-mode refill loop receives an empty chunk: the
  Python `while` loop then makes no progress (it never terminates); the
  embedding returns this error so the model stays total. -/
inductive PyError
  | missingHeader
  | malformedHeader
  | ioTimeout
  | connectionClosed
  | stuck
deriving DecidableEq

/-- One network event of the modelled TCP stream, as seen by one
`socket.recv` call: either the socket has a chunk of up to `k` bytes
ready (`bytes k`), or the socket-level timeout elapses with no data
(`timeout`, modelling `socket.settimeout`). -/
inductive NetEv
  | bytes (k : ℕ)
  | timeout
deriving DecidableEq

/-- The modelled TCP stream: `pending` is the sequence of bytes the
peer will deliver, in order; `sched` says how the stream fragments
them across successive `recv` calls.  A `bytes k` event with no
pending bytes left models the peer having closed (recv returns `b''`). -/
structure SockStream where
  pending : List ℕ
  sched : List NetEv
deriving DecidableEq

/-- `s.recv(req)`: returns at most `req` bytes.  With no scheduled
event, or a `timeout` event, the call raises `socket.timeout`; with a
`bytes k` event it returns the next `min req k` pending bytes (an empty
result models the peer having closed the connection). -/
def recv (req : ℕ) (st : SockStream) : Except PyError (List ℕ × SockStream) :=
  match st.sched with
  | [] => Except.error PyError.ioTimeout
  | NetEv.timeout :: _ => Except.error PyError.ioTimeout
  | NetEv.bytes k :: evs =>
    let m := min req (min k st.pending.length)
    Except.ok (st.pending.take m, ⟨st.pending.drop m, evs⟩)

/-- Number of bytes the stream can still deliver before its first
timeout event (specification-side measure used to state when the
receive loops must fail). -/
def deliverable : List NetEv → ℕ
  | [] => 0
  | NetEv.timeout :: _ => 0
  | NetEv.bytes k :: evs => k + deliverable evs

/-- Bytes actually obtainable from a stream: bounded both by the bytes
the peer will send and by the chunk schedule up to the first timeout. -/
def availBytes (st : SockStream) : ℕ :=
  min st.pending.length (deliverable st.sched)

/-- Python slice index resolution for `xs[i]` bounds: negative indices
count from the end and are clamped at 0; nonnegative indices are
clamped at the length. -/
def pyIdx (n : ℕ) (i : ℤ) : ℕ :=
  if i < 0 then ((n : ℤ) + i).toNat else min i.toNat n

/-- Python slice `xs[a:b]` (step 1), with full negative-index and
clamping semantics. -/
def pySlice (xs : List ℕ) (a b : ℤ) : List ℕ :=
  (xs.take (pyIdx xs.length b)).drop (pyIdx xs.length a)

/-- First index of byte `c` in `xs`, if any (helper for `bytes.find`). -/
def findByte (xs : List ℕ) (c : ℕ) : Option ℕ :=
  match xs with
  | [] => none
  | b :: rest => if b = c then some 0 else (findByte rest c).map (fun i => i + 1)

/-- Python `data.find(bytes([c]))`: the first index of `c`, or `-1`. -/
def pyFind (xs : List ℕ) (c : ℕ) : ℤ :=
  match findByte xs c with
  | some i => (i : ℤ)
  | none => -1

/-- Value of an ASCII decimal digit byte, `none` otherwise. -/
def digitVal? (b : ℕ) : Option ℕ :=
  if 48 ≤ b ∧ b ≤ 57 then some (b - 48) else none

/-- Accumulating digit parser over a byte string. -/
def parseDigits? : List ℕ → ℕ → Option ℕ
  | [], acc => some acc
  | b :: rest, acc =>
    match digitVal? b with
    | some d => parseDigits? rest (10 * acc + d)
    | none => none

/-- `int(bs.decode())` on an unsigned decimal byte string: `none`
models the `ValueError` raised on an empty string or any non-digit
content (and the `UnicodeDecodeError` on non-ASCII bytes). -/
def parseNat? (bs : List ℕ) : Option ℕ :=
  match bs with
  | [] => none
  | _ :: _ => parseDigits? bs 0

/-- `(rawByte - yorigin - yref) * yinc`: the calibration applied to one
raw sample byte.  The identical expression appears in all three
scripts. -/
def toVoltage (b : ℕ) (yinc yorigin yref : ℚ) : ℚ :=
  ((b : ℚ) - yorigin - yref) * yinc

/-- `voltage = (waveform - yorigin - yref) * yinc`: the numpy
expression applied elementwise to the decoded payload. -/
def calibrate (raw : List ℕ) (yinc yorigin yref : ℚ) : List ℚ :=
  raw.map (fun (b : ℕ) => ((b : ℚ) - yorigin - yref) * yinc)

/-- Outcome of a trigger-status polling loop. -/
inductive TrigOutcome
  | fired
  | timedOut
deriving DecidableEq

/-- The trigger-status polling loop shared by `wait_for_trigger`
(normal mode) and the inline `while True` loop of the max-mode main
program.  Each list element is one poll: the status read (`true` iff
it equals `'TD'`) paired with the elapsed time at that poll.  The loop
checks the status first, then the timeout, then sleeps.  The result
carries the number of polls performed; `none` means the supplied poll
budget was exhausted with the loop still running. -/
def pollStatusLoop (timeout : ℚ) : List (Bool × ℚ) → Option (TrigOutcome × ℕ)
  | [] => none
  | (td, t) :: rest =>
    if td then some (TrigOutcome.fired, 1)
    else if timeout < t then some (TrigOutcome.timedOut, 1)
    else (pollStatusLoop timeout rest).map (fun r => (r.1, r.2 + 1))

namespace RigolDAQ

/-- The decode portion of `get_waveform_data` in `rigolDAQ.py` (lines
55-64), given the single `receive_data()` buffer.  It slices the
payload out of that one buffer and never reads further bytes. -/
def get_waveform_data (data : List ℕ) : Except PyError (List ℕ) :=
  let start := pyFind data 35
  if start = -1 then Except.error PyError.missingHeader
  else
    match parseNat? (pySlice data (start + 1) (start + 2)) with
    | none => Except.error PyError.malformedHeader
    | some header_length =>
      match parseNat? (pySlice data (start + 2) (start + 2 + (header_length : ℤ))) with
      | none => Except.error PyError.malformedHeader
      | some byte_count =>
        Except.ok (pySlice data (start + 2 + (header_length : ℤ))
          (start + 2 + (header_length : ℤ) + (byte_count : ℤ)))

/-- `query_float` of `rigolDAQ.py`: `float(receive_data().decode())`,
a single attempt with no retry.  `pf` models the Python `float`
builtin; the error (`ValueError`) carries no command text. -/
def query_float (pf : String → Option ℚ) (resp : String) : Except Unit ℚ :=
  match pf resp with
  | some v => Except.ok v
  | none => Except.error ()

/-- The trigger wait of `rigolDAQ.py`'s main loop (lines 109-112):
`while True: if get_trigger_status() == 'TD': break; time.sleep(0.1)`.
Each list element is one status poll; the result is the number of
polls until `'TD'`.  There is no timeout check, so `none` means the
supplied poll budget ran out with the loop still spinning. -/
def trigger_wait : List Bool → Option ℕ
  | [] => none
  | td :: rest => if td then some 1 else (trigger_wait rest).map (fun n => n + 1)

end RigolDAQ

namespace MaxMode

/-- `receive_waveform_data(byte_count)` of `rigolDAQ_max_mode.py`
(lines 38-45): loop reading `recv(min(4096, remaining))` until exactly
`byte_count` bytes are accumulated; an empty chunk raises
`ConnectionError`.  Stated over the remaining byte count. -/
def receive_waveform_data : ℕ → SockStream → Except PyError (List ℕ × SockStream)
  | 0, st => Except.ok ([], st)
  | need + 1, st =>
    match recv (min 4096 (need + 1)) st with
    | Except.error e => Except.error e
    | Except.ok (chunk, st1) =>
      if _h : chunk.length = 0 then Except.error PyError.connectionClosed
      else
        match receive_waveform_data (need + 1 - chunk.length) st1 with
        | Except.error e => Except.error e
        | Except.ok (rest, st2) => Except.ok (chunk ++ rest, st2)
  termination_by need _ => need
  decreasing_by simp_wf; omega

/-- The header-retry loop of max mode's `get_waveform_data` (lines
71-80): up to `n` attempts, each taking the next `receive_data()`
buffer from `resps` (an exhausted list yields `b''`) and scanning it
for `'#'`; returns the first buffer containing the marker together
with the marker index. -/
def findAttempt : ℕ → List (List ℕ) → Option (List ℕ × ℕ)
  | 0, _ => none
  | n + 1, resps =>
    let data := resps.headD []
    match findByte data 35 with
    | some i => some (data, i)
    | none => findAttempt n resps.tail

/-- `get_waveform_data` of `rigolDAQ_max_mode.py` (lines 67-90),
decoding part: find `'#'` (3 attempts), parse the header with `int`,
take the rest of the buffer as payload start, top up through
`receive_waveform_data` if short, and keep exactly `byte_count`
bytes. -/
def get_waveform_data (resps : List (List ℕ)) (st : SockStream) : Except PyError (List ℕ) :=
  match findAttempt 3 resps with
  | none => Except.error PyError.missingHeader
  | some (data, idx) =>
    let start : ℤ := (idx : ℤ)
    match parseNat? (pySlice data (start + 1) (start + 2)) with
    | none => Except.error PyError.malformedHeader
    | some header_len =>
      match parseNat? (pySlice data (start + 2) (start + 2 + (header_len : ℤ))) with
      | none => Except.error PyError.malformedHeader
      | some byte_count =>
        let waveform_data := pySlice data (start + 2 + (header_len : ℤ)) (data.length : ℤ)
        if waveform_data.length < byte_count then
          match receive_waveform_data (byte_count - waveform_data.length) st with
          | Except.error e => Except.error e
          | Except.ok (extra, _) => Except.ok ((waveform_data ++ extra).take byte_count)
        else Except.ok (waveform_data.take byte_count)

/-- `query_float(command, retries=3)` of `rigolDAQ_max_mode.py`
(lines 47-57): per attempt, read a (stripped) response; an empty
response, or one the `float` builtin (`pf`) rejects, falls through to
the next attempt; exhausting the attempts raises `RuntimeError`
carrying the command.  `resps` lists the successive responses, one per
attempt (an exhausted list yields the empty response). -/
def query_float (cmd : String) (pf : String → Option ℚ) : ℕ → List String → Except String ℚ
  | 0, _ => Except.error cmd
  | r + 1, resps =>
    let resp := resps.headD ""
    match (if resp = "" then none else pf resp) with
    | some v => Except.ok v
    | none => query_float cmd pf r resps.tail

/-- The trigger wait of the max-mode main loop (lines 173-178): poll
status, break on `'TD'`, raise `TimeoutError` once more than 10
seconds have elapsed, else sleep 0.1 s and poll again. -/
def trigger_wait : List (Bool × ℚ) → Option (TrigOutcome × ℕ) :=
  pollStatusLoop 10

end MaxMode

namespace NormalMode

/-- The refill loop inside `get_waveform` of `rigolDAQ_normal_mode.py`
(lines 76-77): `while len(wf) < byte_count: wf += receive_data(rem)`,
where `receive_data` is a single bare `recv`.  An empty chunk makes
the Python loop spin forever; the embedding reports `PyError.stuck`
there to stay total. -/
def get_waveform_refill : ℕ → SockStream → Except PyError (List ℕ × SockStream)
  | 0, st => Except.ok ([], st)
  | need + 1, st =>
    match recv (need + 1) st with
    | Except.error e => Except.error e
    | Except.ok (chunk, st1) =>
      if _h : chunk.length = 0 then Except.error PyError.stuck
      else
        match get_waveform_refill (need + 1 - chunk.length) st1 with
        | Except.error e => Except.error e
        | Except.ok (rest, st2) => Except.ok (chunk ++ rest, st2)
  termination_by need _ => need
  decreasing_by simp_wf; omega

/-- `get_waveform` of `rigolDAQ_normal_mode.py` (lines 69-80),
decoding part.  Note there is no check that `'#'` was found: `start`
may be `-1`, in which case the header slices silently read from the
front of the buffer (Python negative-index slicing). -/
def get_waveform (data : List ℕ) (st : SockStream) : Except PyError (List ℕ) :=
  let start := pyFind data 35
  match parseNat? (pySlice data (start + 1) (start + 2)) with
  | none => Except.error PyError.malformedHeader
  | some header_len =>
    match parseNat? (pySlice data (start + 2) (start + 2 + (header_len : ℤ))) with
    | none => Except.error PyError.malformedHeader
    | some byte_count =>
      let waveform_data := pySlice data (start + 2 + (header_len : ℤ)) (data.length : ℤ)
      if waveform_data.length < byte_count then
        match get_waveform_refill (byte_count - waveform_data.length) st with
        | Except.error e => Except.error e
        | Except.ok (extra, _) => Except.ok ((waveform_data ++ extra).take byte_count)
      else Except.ok (waveform_data.take byte_count)

/-- `query_float` of `rigolDAQ_normal_mode.py` (lines 33-34):
`float(query(cmd))`, a single attempt with no retry. -/
def query_float (pf : String → Option ℚ) (resp : String) : Except Unit ℚ :=
  match pf resp with
  | some v => Except.ok v
  | none => Except.error ()

/-- `wait_for_trigger(timeout=10)` of `rigolDAQ_normal_mode.py`
(lines 39-48): poll status, return on `'TD'`, raise `TimeoutError`
once `timeout` seconds have elapsed, else sleep and poll again. -/
def wait_for_trigger (timeout : ℚ) : List (Bool × ℚ) → Option (TrigOutcome × ℕ) :=
  pollStatusLoop timeout

end NormalMode

/-- Restricted model of the Python `float` builtin used to instantiate
the `query_float` theorems: defined on unsigned decimal integer
literals, `none` where `float` raises `ValueError` (in particular on
the empty string). -/
def floatOfDigits? (s : String) : Option ℚ :=
  (parseNat? (s.data.map Char.toNat)).map (fun n => (n : ℚ))

namespace Trace

/-- SCPI commands sent by the main loops (only those relevant to the
stop-before-fetch ordering are distinguished). -/
inductive Cmd
  | single       -- ':SINGle'
  | sing         -- ':SING'
  | stop         -- ':STOP'
  | sweepSingle  -- 'TRIGger:SWEep SINGle'
  | statusQuery  -- 'TRIGger:STATus?'
deriving DecidableEq

/-- Observable events of an acquisition run: a command sent, a trigger
status received (`statusRun` / `statusTD`), a per-channel waveform
fetch (`WAVeform:DATA?` transaction plus decode), a socket flush, or a
sleep. -/
inductive Ev
  | send (c : Cmd)
  | statusRun
  | statusTD
  | fetch (ch : ℕ)
  | flush
  | sleepEv
deriving DecidableEq

/-- A trigger-status polling phase that observes `'RUN'` `p` times and
then `'TD'`; each poll is one `TRIGger:STATus?` transaction. -/
def pollT : ℕ → List Ev
  | 0 => [Ev.send Cmd.statusQuery, Ev.statusTD]
  | p + 1 => Ev.send Cmd.statusQuery :: Ev.statusRun :: Ev.sleepEv :: pollT p

/-- One iteration of the max-mode main loop (lines 164-188): flush,
settle, `:SINGle`, poll until `'TD'`, `:STOP`, settle, fetch channel
3, flush, fetch channel 4. -/
def iterMax (p : ℕ) : List Ev :=
  Ev.flush :: Ev.sleepEv :: Ev.send Cmd.single ::
    (pollT p ++ [Ev.send Cmd.stop, Ev.sleepEv, Ev.fetch 3, Ev.flush, Ev.fetch 4])

/-- The max-mode run (lines 161-188): `:STOP` and `TRIGger:SWEep
SINGle` once, then one `iterMax` per trigger (`ps` gives the number of
`'RUN'` polls each trigger needed). -/
def runMax (ps : List ℕ) : List Ev :=
  Ev.send Cmd.stop :: Ev.send Cmd.sweepSingle :: (ps.map iterMax).flatten

/-- One iteration of the `rigolDAQ.py` main loop (lines 105-119): poll
until `'TD'`, fetch channel 3, fetch channel 4, re-arm.  No stop
command is ever sent. -/
def iterBasic (p : ℕ) : List Ev :=
  pollT p ++ [Ev.fetch 3, Ev.fetch 4, Ev.send Cmd.sweepSingle]

/-- The `rigolDAQ.py` run (lines 104-119): arm once, then one
`iterBasic` per trigger. -/
def runBasic (ps : List ℕ) : List Ev :=
  Ev.send Cmd.sweepSingle :: (ps.map iterBasic).flatten

/-- One iteration of the normal-mode main loop (lines 139-147):
`:SING`, poll until `'TD'`, fetch channel 3, fetch channel 4.  No stop
command inside the iteration. -/
def iterNM (p : ℕ) : List Ev :=
  Ev.send Cmd.sing :: (pollT p ++ [Ev.fetch 3, Ev.fetch 4])

/-- The normal-mode run (lines 136-147): `:STOP` and `TRIGger:SWEep
SINGle` once before the loop, then one `iterNM` per trigger. -/
def runNM (ps : List ℕ) : List Ev :=
  Ev.send Cmd.stop :: Ev.send Cmd.sweepSingle :: (ps.map iterNM).flatten

/-- State tracking for the stop-before-fetch invariant: `true` iff a
`:STOP` has been sent since the last observed `'TD'` status (initially
`st`). -/
def stopsSince : Bool → List Ev → Bool
  | st, [] => st
  | _, Ev.statusTD :: r => stopsSince false r
  | st, Ev.send c :: r => stopsSince (if c = Cmd.stop then true else st) r
  | st, Ev.statusRun :: r => stopsSince st r
  | st, Ev.fetch _ :: r => stopsSince st r
  | st, Ev.flush :: r => stopsSince st r
  | st, Ev.sleepEv :: r => stopsSince st r

/-- `fetchSafe st tr` holds iff every waveform fetch in `tr` happens
while the acquisition is stopped, i.e. a `:STOP` was sent after the
most recent `'TD'` observation (the argument tracks that state). -/
def fetchSafe : Bool → List Ev → Bool
  | _, [] => true
  | _, Ev.statusTD :: r => fetchSafe false r
  | st, Ev.send c :: r => fetchSafe (if c = Cmd.stop then true else st) r
  | st, Ev.statusRun :: r => fetchSafe st r
  | st, Ev.fetch _ :: r => st && fetchSafe st r
  | st, Ev.flush :: r => fetchSafe st r
  | st, Ev.sleepEv :: r => fetchSafe st r

end Trace

/-! ### Helper lemmas: Python slicing, find, digit parsing -/

theorem pyIdx_natCast (n a : ℕ) : pyIdx n (a : ℤ) = min a n := by
  unfold pyIdx
  rw [if_neg (by exact_mod_cast Int.not_lt.mpr (Int.natCast_nonneg a))]
  simp

theorem take_min_length (xs : List ℕ) (b : ℕ) : xs.take (min b xs.length) = xs.take b := by
  rcases le_total b xs.length with h | h
  · rw [min_eq_left h]
  · rw [min_eq_right h, List.take_length, List.take_of_length_le h]

theorem pySlice_natCast (xs : List ℕ) (a b : ℕ) :
    pySlice xs (a : ℤ) (b : ℤ) = (xs.take b).drop a := by
  unfold pySlice
  rw [pyIdx_natCast, pyIdx_natCast, take_min_length]
  rcases le_total a xs.length with h | h
  · rw [min_eq_left h]
  · have h1 : (xs.take b).length ≤ xs.length := by
      rw [List.length_take]; exact min_le_right _ _
    rw [min_eq_right h, List.drop_eq_nil_of_le h1, List.drop_eq_nil_of_le (le_trans h1 h)]

theorem slice_mid (a b c : List ℕ) :
    ((a ++ b ++ c).take (a.length + b.length)).drop a.length = b := by
  rw [List.append_assoc, List.take_append, List.take_left, List.drop_left]

theorem slice_shift_nat (j xs : List ℕ) (a b : ℕ) :
    pySlice (j ++ xs) ((j.length + a : ℕ) : ℤ) ((j.length + b : ℕ) : ℤ) =
      pySlice xs (a : ℤ) (b : ℤ) := by
  rw [pySlice_natCast, pySlice_natCast, List.take_append, List.drop_append]

theorem slice_shift (j xs : List ℕ) (a b : ℤ) (ha : 0 ≤ a) (hb : 0 ≤ b) :
    pySlice (j ++ xs) ((j.length : ℤ) + a) ((j.length : ℤ) + b) = pySlice xs a b := by
  obtain ⟨a1, rfl⟩ := Int.eq_ofNat_of_zero_le ha
  obtain ⟨b1, rfl⟩ := Int.eq_ofNat_of_zero_le hb
  have h := slice_shift_nat j xs a1 b1
  push_cast at h ⊢
  exact h

theorem not_mem_cons_split {c b : ℕ} {l : List ℕ} (h : c ∉ b :: l) : c ≠ b ∧ c ∉ l := by
  rw [List.mem_cons] at h
  push_neg at h
  exact h

theorem findByte_eq_none {xs : List ℕ} {c : ℕ} (h : c ∉ xs) : findByte xs c = none := by
  induction xs with
  | nil => rfl
  | cons b rest ih =>
    rcases not_mem_cons_split h with ⟨h1, h2⟩
    simp only [findByte]
    rw [if_neg (fun e => h1 e.symm), ih h2]
    rfl

theorem findByte_marker (pre rest : List ℕ) (h : 35 ∉ pre) :
    findByte (pre ++ 35 :: rest) 35 = some pre.length := by
  induction pre with
  | nil => simp [findByte]
  | cons b p ih =>
    rcases not_mem_cons_split h with ⟨h1, h2⟩
    simp only [List.cons_append, findByte, List.append_eq]
    rw [if_neg (fun e => h1 e.symm), ih h2]
    simp

theorem findByte_append_of_not_mem (j xs : List ℕ) (c : ℕ) (h : c ∉ j) :
    findByte (j ++ xs) c = (findByte xs c).map (fun i => j.length + i) := by
  induction j with
  | nil => simp
  | cons b p ih =>
    rcases not_mem_cons_split h with ⟨h1, h2⟩
    simp only [List.cons_append, findByte, List.append_eq]
    rw [if_neg (fun e => h1 e.symm), ih h2]
    cases findByte xs c with
    | none => rfl
    | some i => simp; omega

theorem digitVal?_digit (h : ℕ) (hh : h ≤ 9) : digitVal? (48 + h) = some h := by
  unfold digitVal?
  rw [if_pos ⟨by omega, by omega⟩]
  congr 1
  omega

theorem parseNat?_single_digit (h : ℕ) (hh : h ≤ 9) : parseNat? [48 + h] = some h := by
  simp [parseNat?, parseDigits?, digitVal?_digit h hh]

theorem parseNat?_single_nondigit (c : ℕ) (hc : ¬(48 ≤ c ∧ c ≤ 57)) :
    parseNat? [c] = none := by
  simp [parseNat?, parseDigits?, digitVal?, hc]

theorem parseNat?_nil : parseNat? [] = none := rfl

/-! ### Helper lemmas: the exact-read loops -/

theorem receive_waveform_data_ok (need : ℕ) :
    ∀ st : SockStream,
      (∀ e ∈ st.sched, ∃ k, e = NetEv.bytes k ∧ 1 ≤ k) →
      need ≤ st.sched.length → need ≤ st.pending.length →
      ∃ st2, MaxMode.receive_waveform_data need st =
        Except.ok (st.pending.take need, st2) := by
  induction need using Nat.strong_induction_on with
  | _ need ih =>
    cases need with
    | zero =>
      intro st _ _ _
      exact ⟨st, by simp [MaxMode.receive_waveform_data]⟩
    | succ n =>
      intro st hsched hslen hplen
      cases hs : st.sched with
      | nil => rw [hs] at hslen; simp at hslen
      | cons e evs =>
        obtain ⟨k, hek, hk⟩ := hsched e (by rw [hs]; exact List.mem_cons_self _ _)
        subst hek
        have hplen1 : 1 ≤ st.pending.length := le_trans (Nat.succ_le_succ (Nat.zero_le n)) hplen
        set m := min (min 4096 (n + 1)) (min k st.pending.length) with hm
        have hm1 : 1 ≤ m :=
          le_min (le_min (by norm_num) (Nat.succ_le_succ (Nat.zero_le n))) (le_min hk hplen1)
        have hmle : m ≤ n + 1 := le_trans (min_le_left _ _) (min_le_right _ _)
        have hmplen : m ≤ st.pending.length := le_trans (min_le_right _ _) (min_le_right _ _)
        have hrecv : recv (min 4096 (n + 1)) st =
            Except.ok (st.pending.take m, ⟨st.pending.drop m, evs⟩) := by
          simp only [recv]
          rw [hs]
        have hchlen : (st.pending.take m).length = m := by
          rw [List.length_take]; exact min_eq_left hmplen
        have hslen2 : st.sched.length = evs.length + 1 := by rw [hs]; rfl
        obtain ⟨st2, heq⟩ := ih (n + 1 - m) (by omega) ⟨st.pending.drop m, evs⟩
          (fun e he => hsched e (by rw [hs]; exact List.mem_cons_of_mem _ he))
          (by simp only []; omega)
          (by simp only [List.length_drop]; omega)
        refine ⟨st2, ?_⟩
        simp only [MaxMode.receive_waveform_data]
        rw [hrecv]
        simp only []
        rw [hchlen]
        rw [dif_neg (by omega)]
        rw [heq]
        have hadd : m + (n + 1 - m) = n + 1 := by omega
        show Except.ok (st.pending.take m ++ (st.pending.drop m).take (n + 1 - m), st2) =
          Except.ok (st.pending.take (n + 1), st2)
        rw [← List.take_add, hadd]

theorem get_waveform_refill_ok (need : ℕ) :
    ∀ st : SockStream,
      (∀ e ∈ st.sched, ∃ k, e = NetEv.bytes k ∧ 1 ≤ k) →
      need ≤ st.sched.length → need ≤ st.pending.length →
      ∃ st2, NormalMode.get_waveform_refill need st =
        Except.ok (st.pending.take need, st2) := by
  induction need using Nat.strong_induction_on with
  | _ need ih =>
    cases need with
    | zero =>
      intro st _ _ _
      exact ⟨st, by simp [NormalMode.get_waveform_refill]⟩
    | succ n =>
      intro st hsched hslen hplen
      cases hs : st.sched with
      | nil => rw [hs] at hslen; simp at hslen
      | cons e evs =>
        obtain ⟨k, hek, hk⟩ := hsched e (by rw [hs]; exact List.mem_cons_self _ _)
        subst hek
        have hplen1 : 1 ≤ st.pending.length := le_trans (Nat.succ_le_succ (Nat.zero_le n)) hplen
        set m := min (n + 1) (min k st.pending.length) with hm
        have hm1 : 1 ≤ m :=
          le_min (Nat.succ_le_succ (Nat.zero_le n)) (le_min hk hplen1)
        have hmle : m ≤ n + 1 := min_le_left _ _
        have hmplen : m ≤ st.pending.length := le_trans (min_le_right _ _) (min_le_right _ _)
        have hrecv : recv (n + 1) st =
            Except.ok (st.pending.take m, ⟨st.pending.drop m, evs⟩) := by
          simp only [recv]
          rw [hs]
        have hchlen : (st.pending.take m).length = m := by
          rw [List.length_take]; exact min_eq_left hmplen
        have hslen2 : st.sched.length = evs.length + 1 := by rw [hs]; rfl
        obtain ⟨st2, heq⟩ := ih (n + 1 - m) (by omega) ⟨st.pending.drop m, evs⟩
          (fun e he => hsched e (by rw [hs]; exact List.mem_cons_of_mem _ he))
          (by simp only []; omega)
          (by simp only [List.length_drop]; omega)
        refine ⟨st2, ?_⟩
        simp only [NormalMode.get_waveform_refill]
        rw [hrecv]
        simp only []
        rw [hchlen]
        rw [dif_neg (by omega)]
        rw [heq]
        have hadd : m + (n + 1 - m) = n + 1 := by omega
        show Except.ok (st.pending.take m ++ (st.pending.drop m).take (n + 1 - m), st2) =
          Except.ok (st.pending.take (n + 1), st2)
        rw [← List.take_add, hadd]

theorem receive_waveform_data_length (n : ℕ) :
    ∀ st bs st2, MaxMode.receive_waveform_data n st = Except.ok (bs, st2) →
      bs.length = n := by
  induction n using Nat.strong_induction_on with
  | _ n ih =>
    cases n with
    | zero =>
      intro st bs st2 h
      simp only [MaxMode.receive_waveform_data, Except.ok.injEq, Prod.mk.injEq] at h
      rw [← h.1]
      rfl
    | succ nn =>
      intro st bs st2 h
      simp only [MaxMode.receive_waveform_data] at h
      cases hs : st.sched with
      | nil =>
        rw [show recv (min 4096 (nn + 1)) st = Except.error PyError.ioTimeout by
          simp only [recv]; rw [hs]] at h
        simp at h
      | cons e evs =>
        cases e with
        | timeout =>
          rw [show recv (min 4096 (nn + 1)) st = Except.error PyError.ioTimeout by
            simp only [recv]; rw [hs]] at h
          simp at h
        | bytes k =>
          set m := min (min 4096 (nn + 1)) (min k st.pending.length) with hm
          have hmp : m ≤ st.pending.length := le_trans (min_le_right _ _) (min_le_right _ _)
          have hmn : m ≤ nn + 1 := le_trans (min_le_left _ _) (min_le_right _ _)
          have hrecv : recv (min 4096 (nn + 1)) st =
              Except.ok (st.pending.take m, ⟨st.pending.drop m, evs⟩) := by
            simp only [recv]; rw [hs]
          rw [hrecv] at h
          simp only [] at h
          have hclen : (st.pending.take m).length = m := by
            rw [List.length_take]; exact min_eq_left hmp
          by_cases hz : (st.pending.take m).length = 0
          · rw [dif_pos hz] at h
            simp at h
          · rw [dif_neg hz] at h
            cases hrec : MaxMode.receive_waveform_data
                ((nn + 1) - (st.pending.take m).length) ⟨st.pending.drop m, evs⟩ with
            | error e => rw [hrec] at h; simp at h
            | ok p =>
              rw [hrec] at h
              cases p with
              | mk rest st3 =>
                simp only [Except.ok.injEq, Prod.mk.injEq] at h
                rw [← h.1, List.length_append]
                have hrl : rest.length = (nn + 1) - (st.pending.take m).length :=
                  ih ((nn + 1) - (st.pending.take m).length)
                    (by rw [hclen]; omega) _ _ _ hrec
                rw [hrl, hclen]
                omega

theorem receive_waveform_data_insufficient (n : ℕ) :
    ∀ st : SockStream, availBytes st < n →
      ∃ e, MaxMode.receive_waveform_data n st = Except.error e := by
  induction n using Nat.strong_induction_on with
  | _ n ih =>
    cases n with
    | zero => intro st h; exact absurd h (Nat.not_lt_zero _)
    | succ nn =>
      intro st h
      cases hs : st.sched with
      | nil =>
        refine ⟨PyError.ioTimeout, ?_⟩
        simp only [MaxMode.receive_waveform_data]
        rw [show recv (min 4096 (nn + 1)) st = Except.error PyError.ioTimeout by
          simp only [recv]; rw [hs]]
      | cons e evs =>
        cases e with
        | timeout =>
          refine ⟨PyError.ioTimeout, ?_⟩
          simp only [MaxMode.receive_waveform_data]
          rw [show recv (min 4096 (nn + 1)) st = Except.error PyError.ioTimeout by
            simp only [recv]; rw [hs]]
        | bytes k =>
          set m := min (min 4096 (nn + 1)) (min k st.pending.length) with hm
          have hmp : m ≤ st.pending.length := le_trans (min_le_right _ _) (min_le_right _ _)
          have hmk : m ≤ k := le_trans (min_le_right _ _) (min_le_left _ _)
          have hmn : m ≤ nn + 1 := le_trans (min_le_left _ _) (min_le_right _ _)
          have hrecv : recv (min 4096 (nn + 1)) st =
              Except.ok (st.pending.take m, ⟨st.pending.drop m, evs⟩) := by
            simp only [recv]; rw [hs]
          have hclen : (st.pending.take m).length = m := by
            rw [List.length_take]; exact min_eq_left hmp
          have havail : min st.pending.length (k + deliverable evs) < nn + 1 := by
            have := h
            unfold availBytes at this
            rw [hs] at this
            exact this
          by_cases hz : m = 0
          · refine ⟨PyError.connectionClosed, ?_⟩
            simp only [MaxMode.receive_waveform_data]
            rw [hrecv]
            simp only []
            rw [dif_pos (by rw [hclen]; exact hz)]
          · have hnext : availBytes ⟨st.pending.drop m, evs⟩ < (nn + 1) - m := by
              unfold availBytes
              simp only [List.length_drop]
              rcases le_or_lt st.pending.length (k + deliverable evs) with hc | hc
              · rw [min_eq_left hc] at havail
                exact lt_of_le_of_lt (min_le_left _ _) (by omega)
              · rw [min_eq_right (le_of_lt hc)] at havail
                exact lt_of_le_of_lt (min_le_right _ _) (by omega)
            obtain ⟨e2, he2⟩ := ih ((nn + 1) - m) (by omega) ⟨st.pending.drop m, evs⟩ hnext
            refine ⟨e2, ?_⟩
            simp only [MaxMode.receive_waveform_data]
            rw [hrecv]
            simp only []
            rw [dif_neg (by rw [hclen]; exact hz)]
            rw [hclen, he2]

/-! ### Helper lemmas: slices of a well-formed block buffer -/

theorem pySlice_extract (a b c : List ℕ) (x y : ℕ) (hx : x = a.length)
    (hy : y = a.length + b.length) :
    pySlice (a ++ b ++ c) (x : ℤ) (y : ℤ) = b := by
  subst hx hy
  rw [pySlice_natCast]
  exact slice_mid a b c

theorem pySlice_suffix (a c : List ℕ) (x y : ℕ) (hx : x = a.length)
    (hy : y = (a ++ c).length) :
    pySlice (a ++ c) (x : ℤ) (y : ℤ) = c := by
  subst hx hy
  rw [pySlice_natCast, List.take_length]
  exact List.drop_left a c

theorem MaxMode_gwd_valid (pre lenF r : List ℕ) (h L : ℕ) (st : SockStream)
    (hpre : 35 ∉ pre) (h9 : h ≤ 9) (hlen : lenF.length = h)
    (hL : parseNat? lenF = some L) :
    MaxMode.get_waveform_data [pre ++ 35 :: (48 + h) :: (lenF ++ r)] st =
      if r.length < L then
        match MaxMode.receive_waveform_data (L - r.length) st with
        | Except.error e => Except.error e
        | Except.ok (extra, _) => Except.ok ((r ++ extra).take L)
      else Except.ok (r.take L) := by
  set data := pre ++ 35 :: (48 + h) :: (lenF ++ r) with hdata
  have hfind : findByte data 35 = some pre.length := findByte_marker pre _ hpre
  have hd1 : data = (pre ++ [35]) ++ [48 + h] ++ (lenF ++ r) := by simp [hdata]
  have hd2 : data = (pre ++ [35, 48 + h]) ++ lenF ++ r := by simp [hdata]
  have hd3 : data = (pre ++ [35, 48 + h] ++ lenF) ++ r := by simp [hdata]
  have hs1 : pySlice data ((pre.length : ℤ) + 1) ((pre.length : ℤ) + 2) = [48 + h] := by
    rw [hd1]
    have hx := pySlice_extract (pre ++ [35]) [48 + h] (lenF ++ r)
      (pre.length + 1) (pre.length + 2) (by simp) (by simp)
    exact_mod_cast hx
  have hs2 : pySlice data ((pre.length : ℤ) + 2) ((pre.length : ℤ) + 2 + (h : ℤ)) = lenF := by
    rw [hd2]
    have hx := pySlice_extract (pre ++ [35, 48 + h]) lenF r
      (pre.length + 2) (pre.length + 2 + h) (by simp) (by simp [hlen])
    exact_mod_cast hx
  have hs3 : pySlice data ((pre.length : ℤ) + 2 + (h : ℤ)) ((data.length : ℤ)) = r := by
    rw [hd3]
    have hx := pySlice_suffix (pre ++ [35, 48 + h] ++ lenF) r
      (pre.length + 2 + h) ((pre ++ [35, 48 + h] ++ lenF) ++ r).length
      (by simp [hlen]; omega) rfl
    exact_mod_cast hx
  simp only [MaxMode.get_waveform_data, MaxMode.findAttempt, List.headD_cons]
  rw [hfind]
  simp only []
  rw [hs1, parseNat?_single_digit h h9]
  simp only []
  rw [hs2, hL]
  simp only []
  rw [hs3]

theorem NormalMode_gw_valid (pre lenF r : List ℕ) (h L : ℕ) (st : SockStream)
    (hpre : 35 ∉ pre) (h9 : h ≤ 9) (hlen : lenF.length = h)
    (hL : parseNat? lenF = some L) :
    NormalMode.get_waveform (pre ++ 35 :: (48 + h) :: (lenF ++ r)) st =
      if r.length < L then
        match NormalMode.get_waveform_refill (L - r.length) st with
        | Except.error e => Except.error e
        | Except.ok (extra, _) => Except.ok ((r ++ extra).take L)
      else Except.ok (r.take L) := by
  set data := pre ++ 35 :: (48 + h) :: (lenF ++ r) with hdata
  have hfind : findByte data 35 = some pre.length := findByte_marker pre _ hpre
  have hd1 : data = (pre ++ [35]) ++ [48 + h] ++ (lenF ++ r) := by simp [hdata]
  have hd2 : data = (pre ++ [35, 48 + h]) ++ lenF ++ r := by simp [hdata]
  have hd3 : data = (pre ++ [35, 48 + h] ++ lenF) ++ r := by simp [hdata]
  have hs1 : pySlice data ((pre.length : ℤ) + 1) ((pre.length : ℤ) + 2) = [48 + h] := by
    rw [hd1]
    have hx := pySlice_extract (pre ++ [35]) [48 + h] (lenF ++ r)
      (pre.length + 1) (pre.length + 2) (by simp) (by simp)
    exact_mod_cast hx
  have hs2 : pySlice data ((pre.length : ℤ) + 2) ((pre.length : ℤ) + 2 + (h : ℤ)) = lenF := by
    rw [hd2]
    have hx := pySlice_extract (pre ++ [35, 48 + h]) lenF r
      (pre.length + 2) (pre.length + 2 + h) (by simp) (by simp [hlen])
    exact_mod_cast hx
  have hs3 : pySlice data ((pre.length : ℤ) + 2 + (h : ℤ)) ((data.length : ℤ)) = r := by
    rw [hd3]
    have hx := pySlice_suffix (pre ++ [35, 48 + h] ++ lenF) r
      (pre.length + 2 + h) ((pre ++ [35, 48 + h] ++ lenF) ++ r).length
      (by simp [hlen]; omega) rfl
    exact_mod_cast hx
  have hpf : pyFind data 35 = ((pre.length : ℕ) : ℤ) := by
    unfold pyFind
    rw [hfind]
  simp only [NormalMode.get_waveform]
  rw [hpf]
  rw [hs1, parseNat?_single_digit h h9]
  simp only []
  rw [hs2, hL]
  simp only []
  rw [hs3]

/-! ### Claim theorems -/

/-- C1 (amended): for every valid SCPI binary block
`'#' + d + L-digits + payload` (with `len(payload) = L`), however the
stream fragments the response — the initial buffer holds the header
plus the first `m` bytes of payload-and-trailing, the rest arrives in
arbitrary nonempty chunks — the max-mode and normal-mode waveform
decoders return exactly the `L` declared payload bytes unchanged:
missing payload bytes are read from the stream until exactly `L` are
accumulated, and bytes beyond the declared block are discarded.
(The basic `rigolDAQ.py` decoder does not satisfy this; see the
counterexample.) -/
theorem C1_decode_exact_payload (pre lenF payload trailing : List ℕ) (h L m : ℕ)
    (sched : List NetEv)
    (hpre : 35 ∉ pre) (h9 : h ≤ 9) (hlen : lenF.length = h)
    (hL : parseNat? lenF = some L) (hP : payload.length = L)
    (hsched : ∀ e ∈ sched, ∃ k, e = NetEv.bytes k ∧ 1 ≤ k)
    (hsn : L ≤ sched.length) :
    MaxMode.get_waveform_data
        [pre ++ 35 :: (48 + h) :: (lenF ++ (payload ++ trailing).take m)]
        ⟨(payload ++ trailing).drop m, sched⟩ = Except.ok payload
    ∧ NormalMode.get_waveform
        (pre ++ 35 :: (48 + h) :: (lenF ++ (payload ++ trailing).take m))
        ⟨(payload ++ trailing).drop m, sched⟩ = Except.ok payload := by
  set r := (payload ++ trailing).take m with hr
  set st : SockStream := ⟨(payload ++ trailing).drop m, sched⟩ with hst
  have hrlen : r.length = min m (L + trailing.length) := by
    rw [hr, List.length_take, List.length_append, hP]
  by_cases hcase : r.length < L
  · have hmL : m < L := by
      rcases le_or_lt L m with hge | hlt
      · exfalso
        have : L ≤ r.length := by rw [hrlen]; omega
        omega
      · exact hlt
    have hrm : r.length = m := by rw [hrlen]; omega
    have hrtake : r = payload.take m := by
      rw [hr]
      exact List.take_append_of_le_length (by omega)
    have hpend : st.pending = payload.drop m ++ trailing := by
      rw [hst]
      exact List.drop_append_of_le_length (by omega)
    have hdroplen : (payload.drop m).length = L - m := by
      rw [List.length_drop, hP]
    have hneed : L - r.length = L - m := by rw [hrm]
    have hsched2 : ∀ e ∈ st.sched, ∃ k, e = NetEv.bytes k ∧ 1 ≤ k := hsched
    have hle1 : L - m ≤ st.sched.length := by
      show L - m ≤ sched.length
      omega
    have hle2 : L - m ≤ st.pending.length := by
      show L - m ≤ ((payload ++ trailing).drop m).length
      rw [List.length_drop, List.length_append, hP]
      omega
    have htake : st.pending.take (L - m) = payload.drop m := by
      rw [hpend]
      exact List.take_left' hdroplen
    obtain ⟨st2, hfq⟩ := receive_waveform_data_ok (L - m) st hsched2 hle1 hle2
    obtain ⟨st3, hfqn⟩ := get_waveform_refill_ok (L - m) st hsched2 hle1 hle2
    constructor
    · rw [MaxMode_gwd_valid pre lenF r h L st hpre h9 hlen hL]
      rw [if_pos hcase, hneed, hfq]
      simp only []
      rw [htake, hrtake, List.take_append_drop, ← hP, List.take_length]
    · rw [NormalMode_gw_valid pre lenF r h L st hpre h9 hlen hL]
      rw [if_pos hcase, hneed, hfqn]
      simp only []
      rw [htake, hrtake, List.take_append_drop, ← hP, List.take_length]
  · have hmge : L ≤ m := by
      rcases le_or_lt L m with hge | hlt
      · exact hge
      · exfalso; rw [hrlen] at hcase; omega
    have hrL : r.take L = payload := by
      rw [hr, List.take_take, min_eq_left hmge]
      exact List.take_left' hP
    constructor
    · rw [MaxMode_gwd_valid pre lenF r h L st hpre h9 hlen hL]
      rw [if_neg hcase, hrL]
    · rw [NormalMode_gw_valid pre lenF r h L st hpre h9 hlen hL]
      rw [if_neg hcase, hrL]

/-- Witness for C1: block `#13ABC` (buffer holds `#13A`, bytes `BC`
plus a trailing newline arrive in three one-byte chunks); both
decoders return exactly the 3 declared payload bytes `ABC`. -/
theorem C1_decode_exact_payload_witness :
    MaxMode.get_waveform_data [[35, 49, 51, 65]]
        ⟨[66, 67, 10], [NetEv.bytes 1, NetEv.bytes 1, NetEv.bytes 1]⟩ =
      Except.ok [65, 66, 67]
    ∧ NormalMode.get_waveform [35, 49, 51, 65]
        ⟨[66, 67, 10], [NetEv.bytes 1, NetEv.bytes 1, NetEv.bytes 1]⟩ =
      Except.ok [65, 66, 67] :=
  C1_decode_exact_payload [] [51] [65, 66, 67] [10] 1 3 1
    [NetEv.bytes 1, NetEv.bytes 1, NetEv.bytes 1]
    (by decide) (by decide) (by decide) (by decide) (by decide)
    (by intro e he; fin_cases he <;> exact ⟨1, rfl, le_refl 1⟩) (by decide)

/-- C1 counterexample for the basic `rigolDAQ.py` decoder: on the
block `#13A` whose initial buffer holds only 1 of the 3 declared
payload bytes, the decode returns the truncated 1-byte payload — it
never reads the missing bytes, so the claim fails for this variant. -/
theorem C1_counterexample_basic_truncates :
    RigolDAQ.get_waveform_data [35, 49, 51, 65] = Except.ok [65]
    ∧ ([65] : List ℕ).length ≠ 3 :=
  ⟨rfl, by decide⟩

/-- C2: the calibration step applied elementwise to a decoded payload
computes `voltage = (b - yorigin - yref) * yinc` at every index,
purely (the model has no stream/state argument), preserving length. -/
theorem C2_calibration_linear (raw : List ℕ) (yinc yorigin yref : ℚ) :
    (calibrate raw yinc yorigin yref).length = raw.length
    ∧ ∀ i : ℕ, (calibrate raw yinc yorigin yref)[i]? =
        (raw[i]?).map (fun b => toVoltage b yinc yorigin yref) := by
  constructor
  · simp [calibrate]
  · intro i
    unfold calibrate
    rw [List.getElem?_map]
    rfl

theorem pollStatusLoop_isSome (timeout : ℚ) (seq : List (Bool × ℚ))
    (hex : ∃ p ∈ seq, p.1 = true ∨ timeout < p.2) :
    (pollStatusLoop timeout seq).isSome = true := by
  induction seq with
  | nil => simp at hex
  | cons p rest ih =>
    obtain ⟨q, hq, hdec⟩ := hex
    cases p with
    | mk td t =>
      rcases List.mem_cons.mp hq with rfl | hmem
      · simp only [pollStatusLoop]
        rcases hdec with htd | hto
        · simp only [] at htd
          simp [htd]
        · by_cases htd : td
          · simp [htd]
          · simp only [] at hto
            simp [htd, hto]
      · simp only [pollStatusLoop]
        by_cases htd : td
        · simp [htd]
        · by_cases hto : timeout < t
          · simp [htd, hto]
          · have := ih ⟨q, hmem, hdec⟩
            simp [htd, hto, this]

theorem pollStatusLoop_timedOut (timeout : ℚ) (seq : List (Bool × ℚ))
    (hall : ∀ p ∈ seq, p.1 = false) (hex : ∃ p ∈ seq, timeout < p.2) :
    ∃ n, pollStatusLoop timeout seq = some (TrigOutcome.timedOut, n) := by
  induction seq with
  | nil => simp at hex
  | cons p rest ih =>
    cases p with
    | mk td t =>
      have htd : td = false := hall (td, t) (List.mem_cons_self _ _)
      subst htd
      by_cases hto : timeout < t
      · exact ⟨1, by simp [pollStatusLoop, hto]⟩
      · obtain ⟨q, hq, hqt⟩ := hex
        rcases List.mem_cons.mp hq with heq | hmem
        · exfalso
          rw [heq] at hqt
          exact hto hqt
        · obtain ⟨n, hn⟩ := ih (fun p hp => hall p (List.mem_cons_of_mem _ hp))
            ⟨q, hmem, hqt⟩
          exact ⟨n + 1, by simp [pollStatusLoop, hto, hn]⟩

/-- C3 (amended): the trigger waits of the max-mode and normal-mode
scripts terminate: if some poll sees `'TD'` or happens after the
timeout bound (10 s in max mode, the `timeout` parameter in normal
mode), the loop returns; and if the status never becomes `'TD'` but
the timeout elapses, the loop stops polling and signals the
trigger-timeout error.  (The `rigolDAQ.py` wait loop has no timeout
and does not satisfy this; see the counterexample.) -/
theorem C3_trigger_wait_terminates (timeout : ℚ) (seq : List (Bool × ℚ)) :
    ((∃ p ∈ seq, p.1 = true ∨ timeout < p.2) →
      (NormalMode.wait_for_trigger timeout seq).isSome = true)
    ∧ ((∀ p ∈ seq, p.1 = false) → (∃ p ∈ seq, timeout < p.2) →
      ∃ n, NormalMode.wait_for_trigger timeout seq = some (TrigOutcome.timedOut, n))
    ∧ ((∃ p ∈ seq, p.1 = true ∨ (10 : ℚ) < p.2) →
      (MaxMode.trigger_wait seq).isSome = true)
    ∧ ((∀ p ∈ seq, p.1 = false) → (∃ p ∈ seq, (10 : ℚ) < p.2) →
      ∃ n, MaxMode.trigger_wait seq = some (TrigOutcome.timedOut, n)) :=
  ⟨fun hex => pollStatusLoop_isSome timeout seq hex,
   fun hall hex => pollStatusLoop_timedOut timeout seq hall hex,
   fun hex => pollStatusLoop_isSome 10 seq hex,
   fun hall hex => pollStatusLoop_timedOut 10 seq hall hex⟩

/-- Witness for C3: a run whose single poll reads `'RUN'` at elapsed
time 11 s terminates with the trigger-timeout error in both loops. -/
theorem C3_trigger_wait_terminates_witness :
    (NormalMode.wait_for_trigger 10 [(false, 11)]).isSome = true
    ∧ (∃ n, NormalMode.wait_for_trigger 10 [(false, 11)] = some (TrigOutcome.timedOut, n))
    ∧ (MaxMode.trigger_wait [(false, 11)]).isSome = true
    ∧ (∃ n, MaxMode.trigger_wait [(false, 11)] = some (TrigOutcome.timedOut, n)) := by
  obtain ⟨h1, h2, h3, h4⟩ := C3_trigger_wait_terminates 10 [(false, 11)]
  refine ⟨h1 ?_, h2 ?_ ?_, h3 ?_, h4 ?_ ?_⟩
  · exact ⟨(false, 11), List.mem_singleton_self _, Or.inr (by norm_num)⟩
  · intro p hp
    rw [List.mem_singleton.mp hp]
  · exact ⟨(false, 11), List.mem_singleton_self _, by norm_num⟩
  · exact ⟨(false, 11), List.mem_singleton_self _, Or.inr (by norm_num)⟩
  · intro p hp
    rw [List.mem_singleton.mp hp]
  · exact ⟨(false, 11), List.mem_singleton_self _, by norm_num⟩

/-- C3 counterexample for `rigolDAQ.py`: its trigger wait has no
timeout check, so with a status that never equals `'TD'` it never
returns — no poll budget ever produces a result. -/
theorem C3_counterexample_basic_never_returns :
    ¬ ∃ (k n : ℕ), RigolDAQ.trigger_wait (List.replicate k false) = some n := by
  rintro ⟨k, n, hkn⟩
  have hall : ∀ j, RigolDAQ.trigger_wait (List.replicate j false) = none := by
    intro j
    induction j with
    | zero => rfl
    | succ j ih => simp [RigolDAQ.trigger_wait, List.replicate_succ, ih]
  rw [hall k] at hkn
  cases hkn

theorem findAttempt_none (n : ℕ) :
    ∀ resps : List (List ℕ), (∀ d ∈ resps, 35 ∉ d) →
      MaxMode.findAttempt n resps = none := by
  induction n with
  | zero => intro resps _; rfl
  | succ n ih =>
    intro resps h
    simp only [MaxMode.findAttempt]
    have hhead : findByte (resps.headD []) 35 = none := by
      cases resps with
      | nil => rfl
      | cons a t => exact findByte_eq_none (h a (List.mem_cons_self _ _))
    rw [hhead]
    cases resps with
    | nil => exact ih [] (by intro d hd; cases hd)
    | cons a t => exact ih t (fun d hd => h d (List.mem_cons_of_mem _ hd))

/-- C4 (amended): for every response buffer (sequence of buffers, in
max mode, one per retry) containing no `'#'` marker, the `rigolDAQ.py`
and max-mode decoders fail with the missing-header error — max mode
after its bounded 3 attempts — and never parse a length field.  (The
normal-mode decoder performs no marker check and does not satisfy
this; see the counterexample.) -/
theorem C4_missing_marker (resps : List (List ℕ)) (data : List ℕ) (st : SockStream)
    (hresps : ∀ d ∈ resps, 35 ∉ d) (hdata : 35 ∉ data) :
    MaxMode.get_waveform_data resps st = Except.error PyError.missingHeader
    ∧ RigolDAQ.get_waveform_data data = Except.error PyError.missingHeader := by
  constructor
  · simp only [MaxMode.get_waveform_data]
    rw [findAttempt_none 3 resps hresps]
  · simp only [RigolDAQ.get_waveform_data]
    rw [show pyFind data 35 = -1 from by unfold pyFind; rw [findByte_eq_none hdata]]
    rw [if_pos rfl]

/-- Witness for C4: the ASCII buffer `RUN` contains no `'#'`; both
checked decoders report the missing header. -/
theorem C4_missing_marker_witness :
    MaxMode.get_waveform_data [[82, 85, 78]] ⟨[], []⟩ =
      Except.error PyError.missingHeader
    ∧ RigolDAQ.get_waveform_data [82, 85, 78] = Except.error PyError.missingHeader :=
  C4_missing_marker [[82, 85, 78]] [82, 85, 78] ⟨[], []⟩
    (by intro d hd; fin_cases hd; decide) (by decide)

/-- C4 counterexample for the normal-mode decoder: the buffer
`"13ABC"` (bytes `49,51,65,66,67`) contains no `'#'`, yet
`get_waveform` does not fail with a missing-header error: with
`find = -1` Python's negative-index slicing reads the length field
from the front of the buffer and the decode succeeds, returning
`"ABC"`. -/
theorem C4_counterexample_normal_no_check :
    (35 : ℕ) ∉ ([49, 51, 65, 66, 67] : List ℕ)
    ∧ NormalMode.get_waveform [49, 51, 65, 66, 67] ⟨[], []⟩ =
        Except.ok [65, 66, 67] :=
  ⟨by decide, rfl⟩

theorem pySlice_empty (xs : List ℕ) (a : ℕ) : pySlice xs (a : ℤ) (a : ℤ) = [] := by
  rw [pySlice_natCast]
  exact List.drop_eq_nil_of_le (by rw [List.length_take]; exact min_le_left _ _)

/-- C5: for every block whose length-of-length byte immediately after
`'#'` is `'0'` or not an ASCII digit, the `rigolDAQ.py` and max-mode
decoders fail with the malformed-header error (the `ValueError` from
`int()`), returning before any payload read is attempted. -/
theorem C5_malformed_header (pre rest : List ℕ) (c : ℕ) (st : SockStream)
    (hpre : 35 ∉ pre) (hc : c = 48 ∨ ¬(48 ≤ c ∧ c ≤ 57)) :
    RigolDAQ.get_waveform_data (pre ++ 35 :: c :: rest) =
      Except.error PyError.malformedHeader
    ∧ MaxMode.get_waveform_data [pre ++ 35 :: c :: rest] st =
      Except.error PyError.malformedHeader := by
  set data := pre ++ 35 :: c :: rest with hdata
  have hfind : findByte data 35 = some pre.length := findByte_marker pre _ hpre
  have hd1 : data = (pre ++ [35]) ++ [c] ++ rest := by simp [hdata]
  have hs1 : pySlice data ((pre.length : ℤ) + 1) ((pre.length : ℤ) + 2) = [c] := by
    rw [hd1]
    have hx := pySlice_extract (pre ++ [35]) [c] rest
      (pre.length + 1) (pre.length + 2) (by simp) (by simp)
    exact_mod_cast hx
  have hs2 : pySlice data ((pre.length : ℤ) + 2) ((pre.length : ℤ) + 2 + ((0 : ℕ) : ℤ)) = [] := by
    have e1 : ((pre.length : ℤ) + 2 + ((0 : ℕ) : ℤ)) = (((pre.length + 2 : ℕ)) : ℤ) := by
      push_cast; ring
    have e2 : ((pre.length : ℤ) + 2) = (((pre.length + 2 : ℕ)) : ℤ) := by
      push_cast; ring
    rw [e1, e2]
    exact pySlice_empty data (pre.length + 2)
  have hpf : pyFind data 35 = ((pre.length : ℕ) : ℤ) := by
    unfold pyFind
    rw [hfind]
  rcases hc with rfl | hnd
  · have hp48 : parseNat? [48] = some 0 := by decide
    constructor
    · simp only [RigolDAQ.get_waveform_data]
      rw [hpf, if_neg (by omega), hs1, hp48]
      simp only []
      rw [hs2, parseNat?_nil]
    · simp only [MaxMode.get_waveform_data, MaxMode.findAttempt, List.headD_cons]
      rw [hfind]
      simp only []
      rw [hs1, hp48]
      simp only []
      rw [hs2, parseNat?_nil]
  · have hpc : parseNat? [c] = none := parseNat?_single_nondigit c hnd
    constructor
    · simp only [RigolDAQ.get_waveform_data]
      rw [hpf, if_neg (by omega), hs1, hpc]
    · simp only [MaxMode.get_waveform_data, MaxMode.findAttempt, List.headD_cons]
      rw [hfind]
      simp only []
      rw [hs1, hpc]

/-- Witness for C5: headers `#A…` (non-digit) and `#0…` (zero) both
produce the malformed-header failure in the two checked decoders. -/
theorem C5_malformed_header_witness :
    (RigolDAQ.get_waveform_data [35, 65] = Except.error PyError.malformedHeader
      ∧ MaxMode.get_waveform_data [[35, 65]] ⟨[], []⟩ =
        Except.error PyError.malformedHeader)
    ∧ (RigolDAQ.get_waveform_data [35, 48] = Except.error PyError.malformedHeader
      ∧ MaxMode.get_waveform_data [[35, 48]] ⟨[], []⟩ =
        Except.error PyError.malformedHeader) :=
  ⟨C5_malformed_header [] [] 65 ⟨[], []⟩ (by decide) (Or.inr (by decide)),
   C5_malformed_header [] [] 48 ⟨[], []⟩ (by decide) (Or.inl rfl)⟩

/-- C6: the exact-read primitive `receive_waveform_data` returns a
byte string of length exactly `n` or fails: it never hands a shorter
payload back as complete; if the stream cannot supply `n` bytes it
fails; a socket timeout before any data fails with the timeout error;
a peer close (empty chunk) fails with the connection-closed error. -/
theorem C6_receive_exactly (n : ℕ) (st : SockStream) :
    (∀ bs st2, MaxMode.receive_waveform_data n st = Except.ok (bs, st2) → bs.length = n)
    ∧ (availBytes st < n → ∃ e, MaxMode.receive_waveform_data n st = Except.error e)
    ∧ (0 < n → st.sched.head? = some NetEv.timeout →
        MaxMode.receive_waveform_data n st = Except.error PyError.ioTimeout)
    ∧ (0 < n → st.pending = [] → ∀ k evs, st.sched = NetEv.bytes k :: evs →
        MaxMode.receive_waveform_data n st = Except.error PyError.connectionClosed) := by
  refine ⟨fun bs st2 h => receive_waveform_data_length n st bs st2 h,
    fun h => receive_waveform_data_insufficient n st h, ?_, ?_⟩
  · intro hn hhead
    cases n with
    | zero => exact absurd hn (by omega)
    | succ nn =>
      cases hs : st.sched with
      | nil => rw [hs] at hhead; cases hhead
      | cons e evs =>
        rw [hs] at hhead
        simp only [List.head?_cons, Option.some.injEq] at hhead
        subst hhead
        simp only [MaxMode.receive_waveform_data]
        rw [show recv (min 4096 (nn + 1)) st = Except.error PyError.ioTimeout from by
          simp only [recv]; rw [hs]]
  · intro hn hpend k evs hs
    cases n with
    | zero => exact absurd hn (by omega)
    | succ nn =>
      have hrecv : recv (min 4096 (nn + 1)) st = Except.ok ([], ⟨[], evs⟩) := by
        simp only [recv]
        rw [hs, hpend]
        simp
      simp only [MaxMode.receive_waveform_data]
      rw [hrecv]
      simp

/-- Witness for C6: a successful 2-byte read returns exactly 2 bytes;
a stream with only 1 byte available fails; a timeout event fails with
the timeout error; an empty chunk fails with connection-closed. -/
theorem C6_receive_exactly_witness :
    ([7, 8] : List ℕ).length = 2
    ∧ (∃ e, MaxMode.receive_waveform_data 2 ⟨[7], [NetEv.bytes 5]⟩ = Except.error e)
    ∧ MaxMode.receive_waveform_data 1 ⟨[7], [NetEv.timeout]⟩ =
        Except.error PyError.ioTimeout
    ∧ MaxMode.receive_waveform_data 1 ⟨[], [NetEv.bytes 3]⟩ =
        Except.error PyError.connectionClosed := by
  refine ⟨?_, ?_, ?_, ?_⟩
  · exact (C6_receive_exactly 2 ⟨[7, 8, 9], [NetEv.bytes 5]⟩).1 [7, 8] ⟨[9], []⟩
      (by simp [MaxMode.receive_waveform_data, recv])
  · exact (C6_receive_exactly 2 ⟨[7], [NetEv.bytes 5]⟩).2.1 (by decide)
  · exact (C6_receive_exactly 1 ⟨[7], [NetEv.timeout]⟩).2.2.1 (by decide) rfl
  · exact (C6_receive_exactly 1 ⟨[], [NetEv.bytes 3]⟩).2.2.2 (by decide) rfl 3 [] rfl

theorem headD_eq_getD (l : List String) : l.headD "" = l.getD 0 "" := by
  cases l <;> rfl

theorem tail_getD (l : List String) (i : ℕ) : l.tail.getD i "" = l.getD (i + 1) "" := by
  cases l <;> rfl

/-- C7 (amended): max mode's `query_float` retries the full
send-and-receive up to the retry bound whenever the response is empty
or is rejected by the `float` builtin (`pf`), returns the first value
that parses, and only after exhausting all attempts fails with an
error carrying the offending command.  (The `rigolDAQ.py` and
normal-mode `query_float` make a single attempt with no retry; see the
counterexample.) -/
theorem C7_query_float_retry (cmd : String) (pf : String → Option ℚ) (retries : ℕ) :
    ∀ resps : List String,
      ((∀ i, i < retries → resps.getD i "" = "" ∨ pf (resps.getD i "") = none) →
        MaxMode.query_float cmd pf retries resps = Except.error cmd)
      ∧ (∀ j v, j < retries →
          (∀ i, i < j → resps.getD i "" = "" ∨ pf (resps.getD i "") = none) →
          resps.getD j "" ≠ "" → pf (resps.getD j "") = some v →
          MaxMode.query_float cmd pf retries resps = Except.ok v) := by
  induction retries with
  | zero =>
    intro resps
    exact ⟨fun _ => rfl, fun j v hj _ _ _ => absurd hj (by omega)⟩
  | succ r ih =>
    intro resps
    constructor
    · intro hall
      have h0 := hall 0 (by omega)
      have hnone : (if resps.headD "" = "" then none else pf (resps.headD "")) = none := by
        by_cases hre : resps.headD "" = ""
        · rw [if_pos hre]
        · rw [if_neg hre]
          rcases h0 with hbad | hbad
          · exact absurd (by rw [headD_eq_getD]; exact hbad) hre
          · rw [headD_eq_getD]; exact hbad
      simp only [MaxMode.query_float]
      rw [hnone]
      exact (ih resps.tail).1 (fun i hi => by
        rw [tail_getD]; exact hall (i + 1) (by omega))
    · intro j v hj hbefore hne hpf
      cases j with
      | zero =>
        have hsc : (if resps.headD "" = "" then none else pf (resps.headD "")) = some v := by
          rw [if_neg (by rw [headD_eq_getD]; exact hne), headD_eq_getD]
          exact hpf
        simp only [MaxMode.query_float]
        rw [hsc]
      | succ j2 =>
        have h0 := hbefore 0 (by omega)
        have hnone : (if resps.headD "" = "" then none else pf (resps.headD "")) = none := by
          by_cases hre : resps.headD "" = ""
          · rw [if_pos hre]
          · rw [if_neg hre]
            rcases h0 with hbad | hbad
            · exact absurd (by rw [headD_eq_getD]; exact hbad) hre
            · rw [headD_eq_getD]; exact hbad
        simp only [MaxMode.query_float]
        rw [hnone]
        exact (ih resps.tail).2 j2 v (by omega)
          (fun i hi => by rw [tail_getD]; exact hbefore (i + 1) (by omega))
          (by rw [tail_getD]; exact hne)
          (by rw [tail_getD]; exact hpf)

/-- Witness for C7: with responses `["", "42"]`, the first (empty)
attempt is retried and the second parses, yielding 42; with three
empty responses, all 3 attempts are consumed and the error carries
the command. -/
theorem C7_query_float_retry_witness :
    MaxMode.query_float "WAVeform:YINC?" floatOfDigits? 3 ["", "42"] = Except.ok 42
    ∧ MaxMode.query_float "WAVeform:YINC?" floatOfDigits? 3 ["", "", ""] =
        Except.error "WAVeform:YINC?" := by
  constructor
  · exact (C7_query_float_retry "WAVeform:YINC?" floatOfDigits? 3 ["", "42"]).2 1 42
      (by omega) (fun i hi => by interval_cases i; exact Or.inl rfl)
      (by decide) (by rfl)
  · exact (C7_query_float_retry "WAVeform:YINC?" floatOfDigits? 3 ["", "", ""]).1
      (fun i hi => Or.inl (by interval_cases i <;> rfl))

/-- C7 counterexample: the `rigolDAQ.py` `query_float` performs no
retry — on an empty first response it raises at once (and its
`ValueError` does not carry the command), even though retrying, as the
max-mode variant does on the same response sequence, would succeed. -/
theorem C7_counterexample_basic_no_retry :
    RigolDAQ.query_float floatOfDigits? "" = Except.error ()
    ∧ MaxMode.query_float "WAVeform:YINC?" floatOfDigits? 3 ["", "42"] = Except.ok 42 := by
  constructor
  · rfl
  · rfl

/-- C8: given the status sequence `["RUN","RUN","TD"]` delivered one
status per poll, each of the three trigger waits issues exactly one
status query per poll iteration (one list element is consumed per
iteration) and reaches the fired state on the third poll — and no
sooner: the two-poll prefix leaves every loop still polling. -/
theorem C8_fired_on_third_poll :
    MaxMode.trigger_wait [(false, 0), (false, 1), (true, 1)] =
      some (TrigOutcome.fired, 3)
    ∧ MaxMode.trigger_wait [(false, 0), (false, 1)] = none
    ∧ NormalMode.wait_for_trigger 10 [(false, 0), (false, 1), (true, 1)] =
      some (TrigOutcome.fired, 3)
    ∧ NormalMode.wait_for_trigger 10 [(false, 0), (false, 1)] = none
    ∧ RigolDAQ.trigger_wait [false, false, true] = some 3
    ∧ RigolDAQ.trigger_wait [false, false] = none := by
  refine ⟨?_, ?_, ?_, ?_, ?_, ?_⟩ <;> rfl

theorem stopsSince_append (st : Bool) (a b : List Trace.Ev) :
    Trace.stopsSince st (a ++ b) = Trace.stopsSince (Trace.stopsSince st a) b := by
  induction a generalizing st with
  | nil => rfl
  | cons e r ih => cases e <;> simp [Trace.stopsSince, ih]

theorem fetchSafe_append (st : Bool) (a b : List Trace.Ev) :
    Trace.fetchSafe st (a ++ b) =
      (Trace.fetchSafe st a && Trace.fetchSafe (Trace.stopsSince st a) b) := by
  induction a generalizing st with
  | nil => simp [Trace.fetchSafe, Trace.stopsSince]
  | cons e r ih =>
    cases e <;> simp [Trace.fetchSafe, Trace.stopsSince, ih, Bool.and_assoc]

theorem stopsSince_pollT (st : Bool) (p : ℕ) :
    Trace.stopsSince st (Trace.pollT p) = false := by
  induction p generalizing st with
  | zero => rfl
  | succ p ih => simp [Trace.pollT, Trace.stopsSince, ih]

theorem fetchSafe_pollT (st : Bool) (p : ℕ) :
    Trace.fetchSafe st (Trace.pollT p) = true := by
  induction p generalizing st with
  | zero => rfl
  | succ p ih => simp [Trace.pollT, Trace.fetchSafe, ih]

theorem fetchSafe_iterMax (st : Bool) (p : ℕ) :
    Trace.fetchSafe st (Trace.iterMax p) = true := by
  simp only [Trace.iterMax, Trace.fetchSafe]
  rw [fetchSafe_append, fetchSafe_pollT, stopsSince_pollT]
  rfl

theorem stopsSince_iterMax (st : Bool) (p : ℕ) :
    Trace.stopsSince st (Trace.iterMax p) = true := by
  simp only [Trace.iterMax, Trace.stopsSince]
  rw [stopsSince_append, stopsSince_pollT]
  rfl

/-- C9 (amended): in the max-mode script every acquisition iteration
issues the `:STOP` command after the trigger is observed fired and
before any per-channel waveform fetch: along the whole run trace, for
any number of triggers and any poll counts, every fetch happens with a
`:STOP` sent since the most recent `'TD'` observation.  (The
`rigolDAQ.py` and normal-mode scripts fetch immediately after
observing `'TD'` with no stop in the iteration; see the
counterexample.) -/
theorem C9_stop_before_fetch (ps : List ℕ) :
    Trace.fetchSafe true (Trace.runMax ps) = true := by
  have key : ∀ qs : List ℕ,
      Trace.fetchSafe true ((qs.map Trace.iterMax).flatten) = true := by
    intro qs
    induction qs with
    | nil => rfl
    | cons q t ih =>
      simp only [List.map_cons, List.flatten_cons]
      rw [fetchSafe_append, fetchSafe_iterMax, stopsSince_iterMax, ih]
      rfl
  simp only [Trace.runMax, Trace.fetchSafe]
  have h2 := key ps
  simpa using h2

/-- C9 counterexample: in the `rigolDAQ.py` run the iteration fetches
channels 3 and 4 right after observing `'TD'` without ever sending
`:STOP`, and in the normal-mode run the only `:STOP` precedes the
loop, so the post-trigger fetches also happen without a stop since the
`'TD'` observation. -/
theorem C9_counterexample_fetch_without_stop :
    Trace.fetchSafe true (Trace.runBasic [0]) = false
    ∧ Trace.fetchSafe true (Trace.runNM [0]) = false := by
  constructor
  · rfl
  · rfl

theorem findByte_of_mem {xs : List ℕ} {c : ℕ} (h : c ∈ xs) :
    ∃ i, findByte xs c = some i := by
  induction xs with
  | nil => cases h
  | cons b rest ih =>
    by_cases hb : b = c
    · exact ⟨0, by simp [findByte, hb]⟩
    · rcases List.mem_cons.mp h with rfl | hmem
      · exact absurd rfl hb
      · obtain ⟨i, hi⟩ := ih hmem
        exact ⟨i + 1, by simp [findByte, hb, hi]⟩

/-- C10: for every response buffer containing the `'#'` marker, the
decoded payload depends only on the bytes at and after the first
`'#'`: prepending any `'#'`-free bytes leaves the result of all three
decoders unchanged — leading garbage before the marker is skipped,
not reported as an error. -/
theorem C10_leading_garbage_skipped (junk data : List ℕ) (st : SockStream)
    (hj : 35 ∉ junk) (hd : 35 ∈ data) :
    RigolDAQ.get_waveform_data (junk ++ data) = RigolDAQ.get_waveform_data data
    ∧ MaxMode.get_waveform_data [junk ++ data] st = MaxMode.get_waveform_data [data] st
    ∧ NormalMode.get_waveform (junk ++ data) st = NormalMode.get_waveform data st := by
  obtain ⟨sd, hfd⟩ := findByte_of_mem hd
  have hfshift : findByte (junk ++ data) 35 = some (junk.length + sd) := by
    rw [findByte_append_of_not_mem junk data 35 hj, hfd]
    rfl
  have hpf : pyFind data 35 = ((sd : ℕ) : ℤ) := by
    unfold pyFind; rw [hfd]
  have hpfj : pyFind (junk ++ data) 35 = ((junk.length + sd : ℕ) : ℤ) := by
    unfold pyFind; rw [hfshift]
  have e1 : (((junk.length + sd : ℕ) : ℤ) + 1) = (junk.length : ℤ) + ((sd : ℤ) + 1) := by
    push_cast; ring
  have e2 : (((junk.length + sd : ℕ) : ℤ) + 2) = (junk.length : ℤ) + ((sd : ℤ) + 2) := by
    push_cast; ring
  have hs1 : pySlice (junk ++ data) (((junk.length + sd : ℕ) : ℤ) + 1)
      (((junk.length + sd : ℕ) : ℤ) + 2) =
      pySlice data ((sd : ℤ) + 1) ((sd : ℤ) + 2) := by
    rw [e1, e2]
    exact slice_shift junk data _ _ (by omega) (by omega)
  have hs2 : ∀ h0 : ℕ, pySlice (junk ++ data) (((junk.length + sd : ℕ) : ℤ) + 2)
      (((junk.length + sd : ℕ) : ℤ) + 2 + (h0 : ℤ)) =
      pySlice data ((sd : ℤ) + 2) ((sd : ℤ) + 2 + (h0 : ℤ)) := by
    intro h0
    have e3 : (((junk.length + sd : ℕ) : ℤ) + 2 + (h0 : ℤ)) =
        (junk.length : ℤ) + ((sd : ℤ) + 2 + (h0 : ℤ)) := by push_cast; ring
    rw [e3, e2]
    exact slice_shift junk data _ _ (by omega) (by omega)
  have hs3 : ∀ h0 bc : ℕ, pySlice (junk ++ data)
      (((junk.length + sd : ℕ) : ℤ) + 2 + (h0 : ℤ))
      (((junk.length + sd : ℕ) : ℤ) + 2 + (h0 : ℤ) + (bc : ℤ)) =
      pySlice data ((sd : ℤ) + 2 + (h0 : ℤ)) ((sd : ℤ) + 2 + (h0 : ℤ) + (bc : ℤ)) := by
    intro h0 bc
    have e3 : (((junk.length + sd : ℕ) : ℤ) + 2 + (h0 : ℤ)) =
        (junk.length : ℤ) + ((sd : ℤ) + 2 + (h0 : ℤ)) := by push_cast; ring
    have e4 : (((junk.length + sd : ℕ) : ℤ) + 2 + (h0 : ℤ) + (bc : ℤ)) =
        (junk.length : ℤ) + ((sd : ℤ) + 2 + (h0 : ℤ) + (bc : ℤ)) := by push_cast; ring
    rw [e4, e3]
    exact slice_shift junk data _ _ (by omega) (by omega)
  have hs4 : ∀ h0 : ℕ, pySlice (junk ++ data)
      (((junk.length + sd : ℕ) : ℤ) + 2 + (h0 : ℤ)) (((junk ++ data).length : ℕ) : ℤ) =
      pySlice data ((sd : ℤ) + 2 + (h0 : ℤ)) ((data.length : ℕ) : ℤ) := by
    intro h0
    have e3 : (((junk.length + sd : ℕ) : ℤ) + 2 + (h0 : ℤ)) =
        (junk.length : ℤ) + ((sd : ℤ) + 2 + (h0 : ℤ)) := by push_cast; ring
    have e5 : (((junk ++ data).length : ℕ) : ℤ) =
        (junk.length : ℤ) + ((data.length : ℕ) : ℤ) := by
      rw [List.length_append]; push_cast; ring
    rw [e3, e5]
    exact slice_shift junk data _ _ (by omega) (by omega)
  refine ⟨?_, ?_, ?_⟩
  · simp only [RigolDAQ.get_waveform_data]
    rw [hpf, hpfj, if_neg (by omega), if_neg (by omega), hs1]
    cases hp1 : parseNat? (pySlice data ((sd : ℤ) + 1) ((sd : ℤ) + 2)) with
    | none => rfl
    | some h0 =>
      simp only []
      rw [hs2 h0]
      cases hp2 : parseNat? (pySlice data ((sd : ℤ) + 2) ((sd : ℤ) + 2 + (h0 : ℤ))) with
      | none => rfl
      | some bc =>
        simp only []
        rw [hs3 h0 bc]
  · simp only [MaxMode.get_waveform_data, MaxMode.findAttempt, List.headD_cons]
    rw [hfd, hfshift]
    simp only []
    rw [hs1]
    cases hp1 : parseNat? (pySlice data ((sd : ℤ) + 1) ((sd : ℤ) + 2)) with
    | none => rfl
    | some h0 =>
      simp only []
      rw [hs2 h0]
      cases hp2 : parseNat? (pySlice data ((sd : ℤ) + 2) ((sd : ℤ) + 2 + (h0 : ℤ))) with
      | none => rfl
      | some bc =>
        simp only []
        rw [hs4 h0]
  · simp only [NormalMode.get_waveform]
    rw [hpf, hpfj, hs1]
    cases hp1 : parseNat? (pySlice data ((sd : ℤ) + 1) ((sd : ℤ) + 2)) with
    | none => rfl
    | some h0 =>
      simp only []
      rw [hs2 h0]
      cases hp2 : parseNat? (pySlice data ((sd : ℤ) + 2) ((sd : ℤ) + 2 + (h0 : ℤ))) with
      | none => rfl
      | some bc =>
        simp only []
        rw [hs4 h0]

/-- Witness for C10: prepending the `'#'`-free garbage `"xx"` (bytes
`120,120`) to the block `#13ABC` leaves all three decoded payloads
unchanged. -/
theorem C10_leading_garbage_skipped_witness :
    RigolDAQ.get_waveform_data ([120, 120] ++ [35, 49, 51, 65, 66, 67]) =
      RigolDAQ.get_waveform_data [35, 49, 51, 65, 66, 67]
    ∧ MaxMode.get_waveform_data [[120, 120] ++ [35, 49, 51, 65, 66, 67]] ⟨[], []⟩ =
      MaxMode.get_waveform_data [[35, 49, 51, 65, 66, 67]] ⟨[], []⟩
    ∧ NormalMode.get_waveform ([120, 120] ++ [35, 49, 51, 65, 66, 67]) ⟨[], []⟩ =
      NormalMode.get_waveform [35, 49, 51, 65, 66, 67] ⟨[], []⟩ :=
  C10_leading_garbage_skipped [120, 120] [35, 49, 51, 65, 66, 67] ⟨[], []⟩
    (by decide) (by decide)
